import Mathlib

/-!
Verification development for a two-mode event-extraction pipeline
(`user_post_url.py` and `user_post_img.py`): each program loads content
(an HTML page or a flyer image), sends it to an external LLM, strips an
optional markdown code fence from the response, parses the response as
JSON, and writes the resulting record to a JSON file.

Strings are modelled as lists of characters (`Str`), which matches
Python's sequence-of-code-points string model.
-/

/-- Strings are modelled as lists of Unicode characters. -/
abbrev Str := List Char

/-- Conversion from Lean string literals to the character-list model. -/
def strL (s : String) : Str := s.toList

/-- The whitespace test used by Python's `str.strip()` (ASCII whitespace). -/
def isPySpace (c : Char) : Bool :=
  c == ' ' || c == '\t' || c == '\n' || c == '\r' || c == '\x0b' || c == '\x0c'

/-- Remove leading whitespace, as the left half of Python's `str.strip()`. -/
def ltrim (s : Str) : Str := s.dropWhile isPySpace

/-- Remove trailing whitespace, as the right half of Python's `str.strip()`. -/
def rtrim (s : Str) : Str := (s.reverse.dropWhile isPySpace).reverse

/-- Python's `str.strip()`: drop leading and trailing whitespace. -/
def pyStrip (s : Str) : Str := rtrim (ltrim s)

/-- `isPre a b` holds when `a` is a leading segment of `b`. -/
def isPre : Str → Str → Bool
  | [], _ => true
  | _ :: _, [] => false
  | a :: as, b :: bs => a == b && isPre as bs

/-- Python's substring test `sep in s`. -/
def containsSub (sep : Str) : Str → Bool
  | [] => isPre sep []
  | c :: rest => isPre sep (c :: rest) || containsSub sep rest

/-- Worker for `pySplit`: `acc` holds the current piece reversed, and the
fuel argument dominates the length of the remaining input (it does in every
use, so the `0, c :: rest` branch is never taken). -/
def pySplitF (sep : Str) : Nat → Str → Str → List Str
  | _, [], acc => [acc.reverse]
  | 0, c :: rest, acc => [acc.reverse ++ c :: rest]
  | fuel + 1, c :: rest, acc =>
    if isPre sep (c :: rest) then
      acc.reverse :: pySplitF sep fuel (rest.drop (sep.length - 1)) []
    else
      pySplitF sep fuel rest (c :: acc)

/-- Python's `s.split(sep)` for a non-empty separator: split at each
non-overlapping occurrence of `sep`, scanning left to right. -/
def pySplit (sep s : Str) : List Str := pySplitF sep s.length s []

/-- The closing markdown fence marker. -/
def fence : Str := ['`', '`', '`']

/-- The opening markdown fence marker for a JSON block. -/
def fenceJson : Str := ['`', '`', '`', 'j', 's', 'o', 'n']

/-- The fence-stripping step shared by both extraction clients
(`user_post_url.py` lines 145-150, `user_post_img.py` lines 124-130):
if the response contains a fenced JSON block marker, take
`split("```json")[1].split("```")[0].strip()`; otherwise if it contains a
bare fence, take `split("```")[1].split("```")[0].strip()`; otherwise use
the response text unchanged. -/
def stripFence (s : Str) : Str :=
  if containsSub fenceJson s then
    pyStrip ((pySplit fence ((pySplit fenceJson s).getD 1 [])).headD [])
  else if containsSub fence s then
    pyStrip ((pySplit fence ((pySplit fence s).getD 1 [])).headD [])
  else
    s

example : stripFence (strL "```json\n\x7b\"a\": 1\x7d\n```") = strL "\x7b\"a\": 1\x7d" := by decide

example : stripFence (strL "no fences here") = strL "no fences here" := by decide

example : stripFence (strL "text ```json\n\x7b1\x7d") = strL "\x7b1\x7d" := by decide

example : pySplit (strL ",") (strL "a,b,,c") = [strL "a", strL "b", strL "", strL "c"] := by decide

/-! ## JSON values

`json.loads` produces (for this pipeline's schema) null, strings, arrays
and objects; Python dicts preserve insertion order, so objects are
modelled as ordered association lists. -/

/-- A JSON value as handled by the pipeline (null, string, array, object). -/
inductive JVal where
  | jnull : JVal
  | jstr : Str → JVal
  | jarr : List JVal → JVal
  | jobj : List (Str × JVal) → JVal

/-- Ordered key-value mapping, the model of a Python dict built from JSON. -/
abbrev JRecord := List (Str × JVal)

/-- Python dict read `d[k]` / `d.get(k)`: first binding of `k` wins. -/
def lookupKey (d : JRecord) (k : Str) : Option JVal :=
  match d with
  | [] => none
  | (k1, v1) :: rest => if k1 = k then some v1 else lookupKey rest k

/-- Python dict write `d[k] = v`: replace the value in place when the key
is present (keeping its position), otherwise append the binding. -/
def setKey (d : JRecord) (k : Str) (v : JVal) : JRecord :=
  match d with
  | [] => [(k, v)]
  | (k1, v1) :: rest => if k1 = k then (k1, v) :: rest else (k1, v1) :: setKey rest k v

/-- Building a dict from parsed key-value pairs by repeated insertion,
as Python's JSON object construction does (first position, last value). -/
def buildObj (pairs : JRecord) : JRecord :=
  pairs.foldl (fun d p => setKey d p.1 p.2) []

/-- Field access on a JSON value that is expected to be an object. -/
def lookupField (v : JVal) (k : Str) : Option JVal :=
  match v with
  | JVal.jobj d => lookupKey d k
  | _ => none

/-- The keys of a JSON object value, in order (empty for non-objects). -/
def recKeys (v : JVal) : List Str :=
  match v with
  | JVal.jobj d => d.map Prod.fst
  | _ => []

/-! ## A model of `json.loads`

A recursive-descent parser over the JSON fragment the pipeline's schema
uses (null, strings with the standard short escapes, arrays, objects);
numeric literals and `\u` escapes are outside the modelled fragment and
are rejected.  The fuel argument bounds recursion depth and is always
instantiated above any possible consumption. -/

/-- JSON insignificant whitespace. -/
def isJsonWs (c : Char) : Bool := c == ' ' || c == '\t' || c == '\n' || c == '\r'

/-- Skip insignificant whitespace. -/
def skipWs (s : Str) : Str := s.dropWhile isJsonWs

/-- Decode a single character following a backslash in a JSON string. -/
def unescChar (c : Char) : Option Char :=
  match c with
  | 'n' => some '\n'
  | 't' => some '\t'
  | 'r' => some '\r'
  | '"' => some '"'
  | '\\' => some '\\'
  | '/' => some '/'
  | 'b' => some '\x08'
  | 'f' => some '\x0c'
  | _ => none

/-- Consume an expected literal tail, character by character. -/
def dropLit : Str → Str → Option Str
  | [], s => some s
  | _ :: _, [] => none
  | c :: cs, d :: s => if c == d then dropLit cs s else none

/-- Parse the body of a JSON string literal (the opening quote already
consumed), returning the decoded characters and the rest of the input. -/
def parseStrBody : Str → Option (Str × Str)
  | [] => none
  | c :: rest =>
    if c == '"' then some ([], rest)
    else if c == '\\' then
      match rest with
      | [] => none
      | e :: rest2 =>
        match unescChar e with
        | none => none
        | some d =>
          match parseStrBody rest2 with
          | none => none
          | some (cs, r) => some (d :: cs, r)
    else
      match parseStrBody rest with
      | none => none
      | some (cs, r) => some (c :: cs, r)

mutual

/-- Parse one JSON value at the head of the input (no leading whitespace). -/
def parseVal : Nat → Str → Option (JVal × Str)
  | 0, _ => none
  | fuel + 1, s =>
    match s with
    | [] => none
    | c :: rest =>
      if c == '"' then
        match parseStrBody rest with
        | none => none
        | some (cs, r) => some (JVal.jstr cs, r)
      else if c == '[' then
        match skipWs rest with
        | [] => none
        | d :: r2 =>
          if d == ']' then some (JVal.jarr [], r2)
          else
            match parseItems fuel (d :: r2) with
            | none => none
            | some (vs, r3) => some (JVal.jarr vs, r3)
      else if c == '{' then
        match skipWs rest with
        | [] => none
        | d :: r2 =>
          if d == '}' then some (JVal.jobj [], r2)
          else
            match parsePairs fuel (d :: r2) with
            | none => none
            | some (kvs, r3) => some (JVal.jobj (buildObj kvs), r3)
      else if c == 'n' then
        match dropLit ['u', 'l', 'l'] rest with
        | none => none
        | some r2 => some (JVal.jnull, r2)
      else none

/-- Parse the comma-separated items of a non-empty JSON array, up to and
including the closing bracket. -/
def parseItems : Nat → Str → Option (List JVal × Str)
  | 0, _ => none
  | fuel + 1, s =>
    match parseVal fuel s with
    | none => none
    | some (v, r) =>
      match skipWs r with
      | [] => none
      | d :: r2 =>
        if d == ',' then
          match parseItems fuel (skipWs r2) with
          | none => none
          | some (vs, r3) => some (v :: vs, r3)
        else if d == ']' then some ([v], r2)
        else none

/-- Parse the comma-separated members of a non-empty JSON object, up to
and including the closing brace. -/
def parsePairs : Nat → Str → Option (JRecord × Str)
  | 0, _ => none
  | fuel + 1, s =>
    match s with
    | [] => none
    | c :: rest =>
      if c == '"' then
        match parseStrBody rest with
        | none => none
        | some (kcs, r) =>
          match skipWs r with
          | [] => none
          | d :: r2 =>
            if d == ':' then
              match parseVal fuel (skipWs r2) with
              | none => none
              | some (v, r3) =>
                match skipWs r3 with
                | [] => none
                | d2 :: r4 =>
                  if d2 == ',' then
                    match parsePairs fuel (skipWs r4) with
                    | none => none
                    | some (kvs, r5) => some ((kcs, v) :: kvs, r5)
                  else if d2 == '}' then some ([(kcs, v)], r4)
                  else none
            else none
      else none

end

/-- Model of `json.loads`: parse one value, then require only whitespace
to remain; `none` is the model of a raised `JSONDecodeError`. -/
def jloads (s : Str) : Option JVal :=
  match parseVal (s.length + 1) (skipWs s) with
  | none => none
  | some (v, r) => if skipWs r = [] then some v else none

example : jloads (strL "\x7b\"a\": null, \"b\": [\"x\"]\x7d")
    = some (JVal.jobj [(strL "a", JVal.jnull), (strL "b", JVal.jarr [JVal.jstr (strL "x")])]) := rfl

example : jloads (strL "not json") = none := rfl

/-! ## Extraction clients

The LLM call is an opaque external collaborator: its outcome is either a
response text or a raised exception carrying a message.  Both clients
wrap the call, the fence stripping and the JSON parse in one
`try`/`except` and fall back to a degraded record. -/

/-- Outcome of the external LLM call: a response text, or an exception. -/
inductive LLMOutcome where
  | ok : Str → LLMOutcome
  | exn : Str → LLMOutcome

/-- Message standing for the `json.JSONDecodeError` raised by a failed
`json.loads` (the clients only store `str(e)`, so the exact text is
immaterial to the claims). -/
def parseFailMsg : Str := strL "Expecting value: line 1 column 1 (char 0)"

/-- Message standing for the `TypeError` raised by item assignment on a
parsed value that is not a dict (image mode only). -/
def typeErrMsg : Str := strL "list indices must be integers"

/-- The fallback record built by `extract_event_info_with_llm`
(`user_post_url.py` lines 158-162): only `error`, `source_type` and
`source_data`. -/
def degradedUrl (e source_url : Str) : JVal :=
  JVal.jobj [(strL "error", JVal.jstr e),
             (strL "source_type", JVal.jstr (strL "url")),
             (strL "source_data", JVal.jstr source_url)]

/-- The fallback record built by `extract_event_info_from_image`
(`user_post_img.py` lines 144-156): all content fields `null` (under the
key `summary`), empty `tags`, plus `error`, `source_type`, `source_data`. -/
def degradedImg (e image_path : Str) : JVal :=
  JVal.jobj [(strL "event_name", JVal.jnull),
             (strL "event_date_start", JVal.jnull),
             (strL "event_date_end", JVal.jnull),
             (strL "location", JVal.jnull),
             (strL "organizer", JVal.jnull),
             (strL "target_audience", JVal.jnull),
             (strL "summary", JVal.jnull),
             (strL "source_type", JVal.jstr (strL "image")),
             (strL "source_data", JVal.jstr image_path),
             (strL "tags", JVal.jarr []),
             (strL "error", JVal.jstr e)]

/-- `extract_event_info_with_llm` (`user_post_url.py` lines 137-162): on a
raised LLM call, or on a JSON parse failure of the fence-stripped
response, return the URL fallback record; on success return the parsed
value as-is (the code never inspects it further). -/
def extract_event_info_with_llm (outcome : LLMOutcome) (source_url : Str) : JVal :=
  match outcome with
  | LLMOutcome.exn e => degradedUrl e source_url
  | LLMOutcome.ok text =>
    match jloads (stripFence text) with
    | some v => v
    | none => degradedUrl parseFailMsg source_url

/-- `extract_event_info_from_image` (`user_post_img.py` lines 116-156): on
success, parse the fence-stripped response and overwrite `source_type`
and `source_data` by dict assignment; the assignment on a non-dict parse
result raises a `TypeError`, which the same `except` turns into the
fallback record, as do LLM-call and parse failures. -/
def extract_event_info_from_image (outcome : LLMOutcome) (image_path : Str) : JVal :=
  match outcome with
  | LLMOutcome.exn e => degradedImg e image_path
  | LLMOutcome.ok text =>
    match jloads (stripFence text) with
    | some (JVal.jobj d) =>
      JVal.jobj (setKey (setKey d (strL "source_type") (JVal.jstr (strL "image")))
                        (strL "source_data") (JVal.jstr image_path))
    | some _ => degradedImg typeErrMsg image_path
    | none => degradedImg parseFailMsg image_path

/-! ## Content loaders and orchestrators

`load_image` checks existence, decodes, and converts to RGB; the URL
fetch is an external HTTP collaborator.  Each `main` wraps the whole
pipeline in one `try`/`except`; only the content loader can raise (the
extraction client degrades instead), so an output file is written exactly
when loading succeeds. -/

/-- A decoded PIL image: a color mode string and pixel dimensions. -/
structure PILImage where
  mode : Str
  width : Nat
  height : Nat

/-- A filesystem seen by `load_image`: `none` means the path does not
exist; `some none` means the path exists but `Image.open` raises (not
decodable); `some (some img)` is a decodable image. -/
def FileSystem := Str → Option (Option PILImage)

/-- `load_image` (`user_post_img.py` lines 32-59): raise `FileNotFoundError`
for a missing path, re-raise decode failures, and convert any decoded
image whose mode is not RGB to RGB. -/
def load_image (fs : FileSystem) (image_path : Str) : Except Str PILImage :=
  match fs image_path with
  | none => Except.error (strL "FileNotFoundError")
  | some none => Except.error (strL "UnidentifiedImageError")
  | some (some image) =>
    if image.mode = strL "RGB" then Except.ok image
    else Except.ok { image with mode := strL "RGB" }

/-- Outcome of `fetch_html_content` (`user_post_url.py` lines 33-53): the
HTTP GET either yields the page text or raises (non-2xx status or network
error, re-raised after logging). -/
def FetchOutcome := Except Str Str

/-- `main` of `user_post_img.py` (lines 174-197): returns the record
written to the output file, or `none` when the run failed before the
write (the `except` branch).  `extract_event_info_from_image` never
raises, so only `load_image` can divert to `none`. -/
def mainImg (fs : FileSystem) (llm : LLMOutcome) (image_path : Str) : Option JVal :=
  match load_image fs image_path with
  | Except.error _ => none
  | Except.ok _ => some (extract_event_info_from_image llm image_path)

/-- `main` of `user_post_url.py` (lines 180-206): `fetch_html_content` is
the only step that can raise; `extract_text_from_html` is total and
`extract_event_info_with_llm` degrades instead of raising. -/
def mainUrl (fetch : FetchOutcome) (llm : LLMOutcome) (url : Str) : Option JVal :=
  match fetch with
  | Except.error _ => none
  | Except.ok _ => some (extract_event_info_with_llm llm url)

/-- Result of running a whole program: exited at startup with a code, or
ran the pipeline (with the written record, if any). -/
inductive ProgResult where
  | exited : Nat → ProgResult
  | ran : Option JVal → ProgResult

/-- The startup key check shared by both programs (`user_post_url.py`
lines 21-30, `user_post_img.py` lines 20-29): `os.getenv` plus Python
truthiness, so a missing or empty `GEMINI_API_KEY` takes the `else`
branch, prints guidance, and calls `exit(1)`. -/
def apiKeyOk (env : Str → Option Str) : Bool :=
  match env (strL "GEMINI_API_KEY") with
  | some k => decide (k ≠ [])
  | none => false

/-- The image program as a whole: module-level key check, then `main`. -/
def runImg (env : Str → Option Str) (fs : FileSystem) (llm : LLMOutcome)
    (image_path : Str) : ProgResult :=
  if apiKeyOk env then ProgResult.ran (mainImg fs llm image_path)
  else ProgResult.exited 1

/-- The URL program as a whole: module-level key check, then `main`. -/
def runUrl (env : Str → Option Str) (fetch : FetchOutcome) (llm : LLMOutcome)
    (url : Str) : ProgResult :=
  if apiKeyOk env then ProgResult.ran (mainUrl fetch llm url)
  else ProgResult.exited 1

/-! ## Dict update lemmas -/

theorem lookupKey_setKey_self (d : JRecord) (k : Str) (v : JVal) :
    lookupKey (setKey d k v) k = some v := by
  induction d with
  | nil => simp [setKey, lookupKey]
  | cons p rest ih =>
    obtain ⟨k1, v1⟩ := p
    by_cases h : k1 = k
    · simp [setKey, lookupKey, h]
    · simp [setKey, lookupKey, h, ih]

theorem lookupKey_setKey_other (d : JRecord) (k k2 : Str) (v : JVal) (h : k2 ≠ k) :
    lookupKey (setKey d k v) k2 = lookupKey d k2 := by
  have hne : k ≠ k2 := Ne.symm h
  induction d with
  | nil => simp [setKey, lookupKey, hne]
  | cons p rest ih =>
    obtain ⟨k1, v1⟩ := p
    by_cases h1 : k1 = k
    · subst h1
      simp [setKey, lookupKey, hne]
    · simp [setKey, h1, lookupKey, ih]

/-- C5: in image mode, after a successful JSON parse of the fence-stripped
response into a dict, the client forces `source_type` to `"image"` and
`source_data` to the input file path, and the value found under every
other key is exactly the parsed record's value for that key. -/
theorem claim_C5_image_source_injection (text p : Str) (d : JRecord)
    (h : jloads (stripFence text) = some (JVal.jobj d)) :
    lookupField (extract_event_info_from_image (LLMOutcome.ok text) p) (strL "source_type")
      = some (JVal.jstr (strL "image")) ∧
    lookupField (extract_event_info_from_image (LLMOutcome.ok text) p) (strL "source_data")
      = some (JVal.jstr p) ∧
    ∀ k : Str, k ≠ strL "source_type" → k ≠ strL "source_data" →
      lookupField (extract_event_info_from_image (LLMOutcome.ok text) p) k = lookupKey d k := by
  have e : extract_event_info_from_image (LLMOutcome.ok text) p
      = JVal.jobj (setKey (setKey d (strL "source_type") (JVal.jstr (strL "image")))
                          (strL "source_data") (JVal.jstr p)) := by
    simp only [extract_event_info_from_image, h]
  rw [e]
  refine ⟨?_, ?_, ?_⟩
  · show lookupKey _ _ = _
    rw [lookupKey_setKey_other _ _ _ _ (by decide), lookupKey_setKey_self]
  · show lookupKey _ _ = _
    rw [lookupKey_setKey_self]
  · intro k h1 h2
    show lookupKey _ _ = _
    rw [lookupKey_setKey_other _ _ _ _ h2, lookupKey_setKey_other _ _ _ _ h1]

/-- Witness for C5 at a concrete parsed response. -/
theorem claim_C5_image_source_injection_witness :
    lookupField (extract_event_info_from_image
        (LLMOutcome.ok (strL "\x7b\"event_name\": \"Sports Day\", \"source_type\": \"model says\"\x7d"))
        (strL "flyer.jpg")) (strL "source_type")
      = some (JVal.jstr (strL "image")) :=
  (claim_C5_image_source_injection
    (strL "\x7b\"event_name\": \"Sports Day\", \"source_type\": \"model says\"\x7d")
    (strL "flyer.jpg")
    [(strL "event_name", JVal.jstr (strL "Sports Day")),
     (strL "source_type", JVal.jstr (strL "model says"))]
    (by rfl)).1

/-- C9: on extraction failure the two entry points build differently
shaped degraded records — the URL variant has exactly the keys `error`,
`source_type`, `source_data` (no content fields, no `tags` at all), while
the image variant has all content fields `null` under the key `summary`
(not the success-schema key `description`), `tags` as the empty list, and
`error`, `source_type`, `source_data`; this holds both for a raised LLM
call and for a JSON parse failure. -/
theorem claim_C9_degraded_shape_asymmetry (e url p text : Str)
    (hfail : jloads (stripFence text) = none) :
    recKeys (extract_event_info_with_llm (LLMOutcome.exn e) url)
      = [strL "error", strL "source_type", strL "source_data"] ∧
    lookupField (extract_event_info_with_llm (LLMOutcome.exn e) url) (strL "event_name") = none ∧
    lookupField (extract_event_info_with_llm (LLMOutcome.exn e) url) (strL "tags") = none ∧
    lookupField (extract_event_info_with_llm (LLMOutcome.exn e) url) (strL "error")
      = some (JVal.jstr e) ∧
    lookupField (extract_event_info_with_llm (LLMOutcome.exn e) url) (strL "source_type")
      = some (JVal.jstr (strL "url")) ∧
    lookupField (extract_event_info_with_llm (LLMOutcome.exn e) url) (strL "source_data")
      = some (JVal.jstr url) ∧
    recKeys (extract_event_info_with_llm (LLMOutcome.ok text) url)
      = [strL "error", strL "source_type", strL "source_data"] ∧
    recKeys (extract_event_info_from_image (LLMOutcome.exn e) p)
      = [strL "event_name", strL "event_date_start", strL "event_date_end", strL "location",
         strL "organizer", strL "target_audience", strL "summary", strL "source_type",
         strL "source_data", strL "tags", strL "error"] ∧
    lookupField (extract_event_info_from_image (LLMOutcome.exn e) p) (strL "summary")
      = some JVal.jnull ∧
    lookupField (extract_event_info_from_image (LLMOutcome.exn e) p) (strL "description") = none ∧
    lookupField (extract_event_info_from_image (LLMOutcome.exn e) p) (strL "tags")
      = some (JVal.jarr []) ∧
    lookupField (extract_event_info_from_image (LLMOutcome.exn e) p) (strL "error")
      = some (JVal.jstr e) ∧
    lookupField (extract_event_info_from_image (LLMOutcome.exn e) p) (strL "source_type")
      = some (JVal.jstr (strL "image")) ∧
    lookupField (extract_event_info_from_image (LLMOutcome.exn e) p) (strL "source_data")
      = some (JVal.jstr p) ∧
    recKeys (extract_event_info_from_image (LLMOutcome.ok text) p)
      = [strL "event_name", strL "event_date_start", strL "event_date_end", strL "location",
         strL "organizer", strL "target_audience", strL "summary", strL "source_type",
         strL "source_data", strL "tags", strL "error"] := by
  have hokU : extract_event_info_with_llm (LLMOutcome.ok text) url
      = degradedUrl parseFailMsg url := by
    simp only [extract_event_info_with_llm, hfail]
  have hokI : extract_event_info_from_image (LLMOutcome.ok text) p
      = degradedImg parseFailMsg p := by
    simp only [extract_event_info_from_image, hfail]
  refine ⟨rfl, rfl, rfl, rfl, rfl, rfl, ?_, rfl, rfl, rfl, rfl, rfl, rfl, rfl, ?_⟩
  · rw [hokU]; rfl
  · rw [hokI]; rfl

/-- Witness for C9 at a concrete unparsable response. -/
theorem claim_C9_degraded_shape_asymmetry_witness :
    recKeys (extract_event_info_with_llm (LLMOutcome.ok (strL "oops")) (strL "http://x"))
      = [strL "error", strL "source_type", strL "source_data"] :=
  (claim_C9_degraded_shape_asymmetry (strL "boom") (strL "http://x") (strL "flyer.jpg")
    (strL "oops") (by rfl)).2.2.2.2.2.2.1

/-- C1 as stated is false for the URL entry point: its degraded record
does not carry the content fields as `null` entries, nor an empty `tags`
list — those keys are simply absent (`user_post_url.py` lines 158-162).
At the concrete exception "boom" and URL "http://x", the claimed
null-content/empty-tags shape fails. -/
theorem claim_C1_counterexample :
    ¬ (lookupField (extract_event_info_with_llm (LLMOutcome.exn (strL "boom")) (strL "http://x"))
         (strL "event_name") = some JVal.jnull ∧
       lookupField (extract_event_info_with_llm (LLMOutcome.exn (strL "boom")) (strL "http://x"))
         (strL "tags") = some (JVal.jarr [])) :=
  fun hcl => Option.noConfusion hcl.1

/-- C1 amended: no exception raised during the LLM call or during JSON
parsing propagates out of either extraction client; instead a degraded
record is returned with `error` set and `source_type`/`source_data`
populated.  In image mode every content field is `null` (with the key
`summary`) and `tags` is the empty list; in URL mode the degraded record
consists of the bookkeeping keys only, so the content fields and `tags`
are absent rather than null/empty. -/
theorem claim_C1_amended_fail_soft (e url p text : Str)
    (hfail : jloads (stripFence text) = none) :
    extract_event_info_with_llm (LLMOutcome.exn e) url
      = JVal.jobj [(strL "error", JVal.jstr e),
                   (strL "source_type", JVal.jstr (strL "url")),
                   (strL "source_data", JVal.jstr url)] ∧
    extract_event_info_with_llm (LLMOutcome.ok text) url
      = JVal.jobj [(strL "error", JVal.jstr parseFailMsg),
                   (strL "source_type", JVal.jstr (strL "url")),
                   (strL "source_data", JVal.jstr url)] ∧
    lookupField (extract_event_info_from_image (LLMOutcome.exn e) p) (strL "event_name")
      = some JVal.jnull ∧
    lookupField (extract_event_info_from_image (LLMOutcome.exn e) p) (strL "event_date_start")
      = some JVal.jnull ∧
    lookupField (extract_event_info_from_image (LLMOutcome.exn e) p) (strL "event_date_end")
      = some JVal.jnull ∧
    lookupField (extract_event_info_from_image (LLMOutcome.exn e) p) (strL "location")
      = some JVal.jnull ∧
    lookupField (extract_event_info_from_image (LLMOutcome.exn e) p) (strL "organizer")
      = some JVal.jnull ∧
    lookupField (extract_event_info_from_image (LLMOutcome.exn e) p) (strL "target_audience")
      = some JVal.jnull ∧
    lookupField (extract_event_info_from_image (LLMOutcome.exn e) p) (strL "summary")
      = some JVal.jnull ∧
    lookupField (extract_event_info_from_image (LLMOutcome.exn e) p) (strL "tags")
      = some (JVal.jarr []) ∧
    lookupField (extract_event_info_from_image (LLMOutcome.exn e) p) (strL "error")
      = some (JVal.jstr e) ∧
    lookupField (extract_event_info_from_image (LLMOutcome.exn e) p) (strL "source_type")
      = some (JVal.jstr (strL "image")) ∧
    lookupField (extract_event_info_from_image (LLMOutcome.exn e) p) (strL "source_data")
      = some (JVal.jstr p) ∧
    extract_event_info_from_image (LLMOutcome.ok text) p = degradedImg parseFailMsg p := by
  have hokU : extract_event_info_with_llm (LLMOutcome.ok text) url
      = degradedUrl parseFailMsg url := by
    simp only [extract_event_info_with_llm, hfail]
  have hokI : extract_event_info_from_image (LLMOutcome.ok text) p
      = degradedImg parseFailMsg p := by
    simp only [extract_event_info_from_image, hfail]
  exact ⟨rfl, hokU, rfl, rfl, rfl, rfl, rfl, rfl, rfl, rfl, rfl, rfl, rfl, hokI⟩

/-- Witness for the amended C1 at a concrete unparsable response. -/
theorem claim_C1_amended_fail_soft_witness :
    extract_event_info_with_llm (LLMOutcome.ok (strL "sorry, no JSON today")) (strL "http://x")
      = JVal.jobj [(strL "error", JVal.jstr parseFailMsg),
                   (strL "source_type", JVal.jstr (strL "url")),
                   (strL "source_data", JVal.jstr (strL "http://x"))] :=
  (claim_C1_amended_fail_soft (strL "boom") (strL "http://x") (strL "flyer.jpg")
    (strL "sorry, no JSON today") (by rfl)).2.1

/-- C8: whenever `load_image` returns, the returned image is in RGB mode:
non-RGB decodes are converted, so no non-3-channel mode ever escapes. -/
theorem claim_C8_loader_returns_rgb (fs : FileSystem) (path : Str) (img : PILImage)
    (h : load_image fs path = Except.ok img) : img.mode = strL "RGB" := by
  unfold load_image at h
  cases hfs : fs path with
  | none => rw [hfs] at h; cases h
  | some dec =>
    cases dec with
    | none => rw [hfs] at h; cases h
    | some i =>
      rw [hfs] at h
      dsimp only at h
      by_cases hm : i.mode = strL "RGB"
      · rw [if_pos hm] at h
        cases h
        exact hm
      · rw [if_neg hm] at h
        cases h
        rfl

/-- Witness for C8 on a concrete greyscale image that gets converted. -/
theorem claim_C8_loader_returns_rgb_witness :
    (PILImage.mk (strL "RGB") 640 480).mode = strL "RGB" :=
  claim_C8_loader_returns_rgb (fun _ => some (some (PILImage.mk (strL "L") 640 480)))
    (strL "flyer.jpg") (PILImage.mk (strL "RGB") 640 480) (by rfl)

/-- C7: with `GEMINI_API_KEY` absent from the environment, both programs
exit with status 1 at the module-level check, before any pipeline step. -/
theorem claim_C7_missing_key_exits (env : Str → Option Str) (fs : FileSystem)
    (fetch : FetchOutcome) (llm : LLMOutcome) (path url : Str)
    (h : env (strL "GEMINI_API_KEY") = none) :
    runImg env fs llm path = ProgResult.exited 1 ∧
    runUrl env fetch llm url = ProgResult.exited 1 := by
  have hk : apiKeyOk env = false := by
    unfold apiKeyOk
    rw [h]
  constructor
  · unfold runImg
    rw [hk]
    rfl
  · unfold runUrl
    rw [hk]
    rfl

/-- Witness for C7 on the empty environment. -/
theorem claim_C7_missing_key_exits_witness :
    runImg (fun _ => none) (fun _ => none) (LLMOutcome.ok (strL "ignored")) (strL "flyer.jpg")
      = ProgResult.exited 1 :=
  (claim_C7_missing_key_exits (fun _ => none) (fun _ => none) (Except.error (strL "dns"))
    (LLMOutcome.ok (strL "ignored")) (strL "flyer.jpg") (strL "http://x") (by rfl)).1

/-- C3: an output record is handed to the writer exactly when the content
loader succeeds; a loader exception (in particular a nonexistent image
path, which raises `FileNotFoundError`) is caught with no file written,
while an extraction failure still reaches the writer with the degraded
record. -/
theorem claim_C3_loader_only_hard_failure (fs : FileSystem) (fetch : FetchOutcome)
    (llm : LLMOutcome) (e path url : Str) :
    ((∃ r, mainImg fs llm path = some r) ↔ (∃ img, load_image fs path = Except.ok img)) ∧
    ((∃ r, mainUrl fetch llm url = some r) ↔ (∃ html, fetch = Except.ok html)) ∧
    (fs path = none →
      load_image fs path = Except.error (strL "FileNotFoundError") ∧
      mainImg fs llm path = none) ∧
    ((∃ img, load_image fs path = Except.ok img) →
      mainImg fs (LLMOutcome.exn e) path = some (degradedImg e path)) ∧
    ((∃ html, fetch = Except.ok html) →
      mainUrl fetch (LLMOutcome.exn e) url = some (degradedUrl e url)) := by
  refine ⟨?_, ?_, ?_, ?_, ?_⟩
  · constructor
    · rintro ⟨r, hr⟩
      cases hl : load_image fs path with
      | error s => rw [mainImg, hl] at hr; cases hr
      | ok img => exact ⟨img, rfl⟩
    · rintro ⟨img, himg⟩
      exact ⟨extract_event_info_from_image llm path, by rw [mainImg, himg]⟩
  · constructor
    · rintro ⟨r, hr⟩
      cases hf : fetch with
      | error s => rw [hf] at hr; cases hr
      | ok html => exact ⟨html, rfl⟩
    · rintro ⟨html, hh⟩
      refine ⟨extract_event_info_with_llm llm url, ?_⟩
      rw [hh]
      rfl
  · intro hmiss
    have hl : load_image fs path = Except.error (strL "FileNotFoundError") := by
      unfold load_image
      rw [hmiss]
    exact ⟨hl, by rw [mainImg, hl]⟩
  · rintro ⟨img, himg⟩
    rw [mainImg, himg]
    rfl
  · rintro ⟨html, hh⟩
    rw [hh]
    rfl

/-- Witness for C3: a nonexistent path writes nothing, and a run whose
LLM call raises still produces the degraded record for the writer. -/
theorem claim_C3_loader_only_hard_failure_witness :
    (load_image (fun _ => none) (strL "missing.jpg")
        = Except.error (strL "FileNotFoundError") ∧
      mainImg (fun _ => none) (LLMOutcome.exn (strL "boom")) (strL "missing.jpg") = none) ∧
    mainUrl (Except.ok (strL "<p>hi</p>")) (LLMOutcome.exn (strL "boom")) (strL "http://x")
      = some (degradedUrl (strL "boom") (strL "http://x")) :=
  ⟨(claim_C3_loader_only_hard_failure (fun _ => none) (Except.ok (strL "<p>hi</p>"))
      (LLMOutcome.exn (strL "boom")) (strL "boom") (strL "missing.jpg") (strL "http://x")).2.2.1
      (by rfl),
   (claim_C3_loader_only_hard_failure (fun _ => none) (Except.ok (strL "<p>hi</p>"))
      (LLMOutcome.exn (strL "boom")) (strL "boom") (strL "missing.jpg") (strL "http://x")).2.2.2.2
      ⟨strL "<p>hi</p>", rfl⟩⟩

/-! ## HTML text extraction (`extract_text_from_html`, `user_post_url.py`
lines 56-77)

BeautifulSoup's parse tree is modelled as a forest of nodes (text nodes
and named elements); `decompose()` removes an element and its whole
subtree, `get_text(separator="\n")` joins every surviving text node in
document order with a newline.  The line post-processing
(`splitlines` / `strip` / filter / `join`) is translated directly. -/

/-- A node of the parsed HTML tree. -/
inductive HNode where
  | htext : Str → HNode
  | helem : Str → List HNode → HNode

/-- The tag names passed to `soup(...)` for removal (line 69). -/
def badTags : List Str :=
  [strL "script", strL "style", strL "nav", strL "footer", strL "header"]

mutual

/-- `decompose()` applied to every element named in `badTags`: the
element and its entire content disappear from the tree. -/
def stripBad : HNode → Option HNode
  | HNode.htext s => some (HNode.htext s)
  | HNode.helem name kids =>
    if name ∈ badTags then none
    else some (HNode.helem name (stripBadList kids))

/-- `stripBad` over a forest, dropping removed nodes. -/
def stripBadList : List HNode → List HNode
  | [] => []
  | n :: ns =>
    match stripBad n with
    | none => stripBadList ns
    | some m => m :: stripBadList ns

end

mutual

/-- All text-node contents of a node in document order. -/
def textsOf : HNode → List Str
  | HNode.htext s => [s]
  | HNode.helem _ kids => textsOfList kids

/-- All text-node contents of a forest in document order. -/
def textsOfList : List HNode → List Str
  | [] => []
  | n :: ns => textsOf n ++ textsOfList ns

end

/-- Join with a newline separator, as `"\n".join` / `get_text(separator="\n")`. -/
def joinNl : List Str → Str
  | [] => []
  | [s] => s
  | s :: rest => s ++ '\n' :: joinNl rest

/-- Line-boundary characters of Python's `str.splitlines`. -/
def isLineBreak (c : Char) : Bool :=
  c == '\n' || c == '\r' || c == '\x0b' || c == '\x0c' || c == '\x1c' ||
  c == '\x1d' || c == '\x1e' || c == '\x85' || c == ' ' || c == ' '

/-- Worker for `pySplitlines`; `acc` holds the current line reversed.  At
the end of input the pending line is emitted only if nonempty, and a
`"\r\n"` pair counts as a single boundary. -/
def splitlinesGo : Str → Str → List Str
  | [], acc => if acc = [] then [] else [acc.reverse]
  | '\r' :: '\n' :: rest, acc => acc.reverse :: splitlinesGo rest []
  | c :: rest, acc =>
    if isLineBreak c then acc.reverse :: splitlinesGo rest []
    else splitlinesGo rest (c :: acc)

/-- Python's `str.splitlines()`. -/
def pySplitlines (s : Str) : List Str := splitlinesGo s []

/-- The list comprehension of line 76: keep the lines that are non-blank
after stripping, stripped. -/
def cleanLines (text : Str) : List Str :=
  ((pySplitlines text).filter (fun line => pyStrip line ≠ [])).map pyStrip

/-- `extract_text_from_html` on a parsed document: remove the non-content
elements, take the visible text joined by newlines, and normalize it to
one stripped non-blank line per source line. -/
def extract_text_from_html (doc : List HNode) : Str :=
  joinNl (cleanLines (joinNl (textsOfList (stripBadList doc))))

example :
    extract_text_from_html
      [HNode.helem (strL "nav") [HNode.htext (strL "Menu")],
       HNode.helem (strL "p") [HNode.htext (strL "Event: Fall Festival, Oct 5")]]
    = strL "Event: Fall Festival, Oct 5" := by decide

/-- Dropping leading whitespace from an all-whitespace result means there
was nothing left. -/
theorem dropWhile_isPySpace_all (t : Str)
    (h : (t.dropWhile isPySpace).all isPySpace = true) : t.dropWhile isPySpace = [] := by
  induction t with
  | nil => rfl
  | cons c rest ih =>
    by_cases hc : isPySpace c = true
    · rw [List.dropWhile_cons_of_pos hc] at h ⊢
      exact ih h
    · rw [List.dropWhile_cons_of_neg hc] at h
      rw [List.all_cons] at h
      exact absurd (Bool.and_elim_left h) hc

/-- A nonempty stripped string is not whitespace-only. -/
theorem pyStrip_not_blank (s : Str) (h : pyStrip s ≠ []) :
    (pyStrip s).all isPySpace = false := by
  by_contra hall
  apply h
  have hall2 : (pyStrip s).all isPySpace = true := by
    cases hh : (pyStrip s).all isPySpace with
    | true => rfl
    | false => exact absurd hh hall
  unfold pyStrip rtrim at hall2 ⊢
  rw [List.all_reverse] at hall2
  rw [dropWhile_isPySpace_all _ hall2]
  rfl

/-- C4: the HTML text extractor removes script/style/nav/footer/header
elements together with their content, and its output lines are exactly
stripped non-blank source lines — no emitted line is empty or
whitespace-only, every line is the trimmed form of a non-blank line of
the extracted visible text, and relative order is preserved (the output
line list is a sublist of the stripped source line list). -/
theorem claim_C4_text_extractor_lines (doc : List HNode) :
    (∀ name kids, name ∈ badTags → stripBad (HNode.helem name kids) = none) ∧
    (∀ l, l ∈ cleanLines (joinNl (textsOfList (stripBadList doc))) →
      l ≠ [] ∧ l.all isPySpace = false ∧
      ∃ src ∈ pySplitlines (joinNl (textsOfList (stripBadList doc))),
        l = pyStrip src ∧ pyStrip src ≠ []) ∧
    List.Sublist (cleanLines (joinNl (textsOfList (stripBadList doc))))
      ((pySplitlines (joinNl (textsOfList (stripBadList doc)))).map pyStrip) ∧
    extract_text_from_html doc
      = joinNl (cleanLines (joinNl (textsOfList (stripBadList doc)))) := by
  refine ⟨?_, ?_, ?_, rfl⟩
  · intro name kids h
    unfold stripBad
    rw [if_pos h]
  · intro l hl
    unfold cleanLines at hl
    rw [List.mem_map] at hl
    obtain ⟨src, hsrc, hstrip⟩ := hl
    rw [List.mem_filter] at hsrc
    obtain ⟨hmem, hne⟩ := hsrc
    have hne2 : pyStrip src ≠ [] := by
      intro hx
      rw [hx] at hne
      simp at hne
    subst hstrip
    exact ⟨hne2, pyStrip_not_blank src hne2, src, hmem, rfl, hne2⟩
  · exact List.Sublist.map pyStrip (List.filter_sublist _)

/-- Witness for C4 on the nav-plus-paragraph scenario: the nav content is
excluded and the single surviving line is clean. -/
theorem claim_C4_text_extractor_lines_witness :
    (extract_text_from_html
        [HNode.helem (strL "nav") [HNode.htext (strL "Menu")],
         HNode.helem (strL "p") [HNode.htext (strL "Event: Fall Festival, Oct 5")]]
      = strL "Event: Fall Festival, Oct 5") ∧
    (strL "Event: Fall Festival, Oct 5" ≠ [] ∧
      (strL "Event: Fall Festival, Oct 5").all isPySpace = false ∧
      ∃ src ∈ pySplitlines (joinNl (textsOfList (stripBadList
          [HNode.helem (strL "nav") [HNode.htext (strL "Menu")],
           HNode.helem (strL "p") [HNode.htext (strL "Event: Fall Festival, Oct 5")]]))),
        strL "Event: Fall Festival, Oct 5" = pyStrip src ∧ pyStrip src ≠ []) :=
  ⟨by decide,
   (claim_C4_text_extractor_lines
      [HNode.helem (strL "nav") [HNode.htext (strL "Menu")],
       HNode.helem (strL "p") [HNode.htext (strL "Event: Fall Festival, Oct 5")]]).2.1
      (strL "Event: Fall Festival, Oct 5") (by decide)⟩

/-! ## Lemmas about substring search and Python split -/

theorem isPre_append (a t : Str) : isPre a (a ++ t) = true := by
  induction a with
  | nil => rfl
  | cons c as ih => simp [isPre, ih]

theorem isPre_exists : ∀ a b : Str, isPre a b = true → ∃ t, b = a ++ t
  | [], b, _ => ⟨b, rfl⟩
  | c :: as, [], h => by simp [isPre] at h
  | c :: as, d :: bs, h => by
    simp only [isPre, Bool.and_eq_true, beq_iff_eq] at h
    obtain ⟨rfl, h2⟩ := h
    obtain ⟨t, rfl⟩ := isPre_exists as bs h2
    exact ⟨t, rfl⟩

theorem containsSub_of_isPre (sep t : Str) (h : isPre sep t = true) :
    containsSub sep t = true := by
  cases t with
  | nil => simpa [containsSub] using h
  | cons c r => simp [containsSub, h]

theorem containsSub_exists (sep s : Str) (h : containsSub sep s = true) :
    ∃ a c : Str, s = a ++ sep ++ c := by
  induction s with
  | nil =>
    simp only [containsSub] at h
    obtain ⟨t, ht⟩ := isPre_exists sep [] h
    exact ⟨[], t, by simp only [List.nil_append]; exact ht⟩
  | cons c r ih =>
    simp only [containsSub, Bool.or_eq_true] at h
    cases h with
    | inl h1 =>
      obtain ⟨t, ht⟩ := isPre_exists sep (c :: r) h1
      exact ⟨[], t, by simp only [List.nil_append]; exact ht⟩
    | inr h2 =>
      obtain ⟨a, d, hd⟩ := ih h2
      exact ⟨c :: a, d, by rw [hd]; rfl⟩

theorem containsSub_intro (sep a c : Str) : containsSub sep (a ++ sep ++ c) = true := by
  induction a with
  | nil => exact containsSub_of_isPre sep (sep ++ c) (isPre_append sep c)
  | cons x a2 ih =>
    simp only [List.cons_append, containsSub, Bool.or_eq_true]
    exact Or.inr ih

theorem containsSub_of_append (u v s : Str) (h : containsSub (u ++ v) s = true) :
    containsSub u s = true := by
  obtain ⟨a, c, rfl⟩ := containsSub_exists (u ++ v) s h
  have e : a ++ (u ++ v) ++ c = a ++ u ++ (v ++ c) := by simp [List.append_assoc]
  rw [e]
  exact containsSub_intro u a (v ++ c)

theorem isPre_length : ∀ a b : Str, isPre a b = true → a.length ≤ b.length
  | [], _, _ => Nat.zero_le _
  | c :: as, [], h => by simp [isPre] at h
  | c :: as, d :: bs, h => by
    simp only [isPre, Bool.and_eq_true] at h
    simpa [List.length_cons] using Nat.succ_le_succ (isPre_length as bs h.2)

theorem isPre_of_isPre_le : ∀ u v m : Str, isPre u m = true → isPre v m = true →
    u.length ≤ v.length → isPre u v = true
  | [], _, _, _, _, _ => rfl
  | c :: us, [], m, _, _, hl => by simp at hl
  | c :: us, d :: vs, [], hu, _, _ => by simp [isPre] at hu
  | c :: us, d :: vs, e :: ms, hu, hv, hl => by
    simp only [isPre, Bool.and_eq_true, beq_iff_eq] at hu hv ⊢
    obtain ⟨rfl, hu2⟩ := hu
    obtain ⟨rfl, hv2⟩ := hv
    refine ⟨rfl, ?_⟩
    exact isPre_of_isPre_le us vs ms hu2 hv2 (by simpa using hl)

theorem containsSub_of_decomp (sep m t u a1 d : Str) (hm : m = a1 ++ sep ++ d)
    (ht : m = t ++ u) (hl : a1.length + sep.length ≤ t.length) :
    containsSub sep t = true := by
  have h1 : isPre (a1 ++ sep) m = true := by rw [hm]; exact isPre_append (a1 ++ sep) d
  have h2 : isPre t m = true := by rw [ht]; exact isPre_append t u
  have h3 : isPre (a1 ++ sep) t = true :=
    isPre_of_isPre_le (a1 ++ sep) t m h1 h2 (by simpa using hl)
  obtain ⟨w, hw⟩ := isPre_exists (a1 ++ sep) t h3
  rw [hw]
  exact containsSub_intro sep a1 w

theorem containsSub_cons_false (sep : Str) (x : Char) (r : Str)
    (h : containsSub sep (x :: r) = false) :
    isPre sep (x :: r) = false ∧ containsSub sep r = false := by
  simpa [containsSub, Bool.or_eq_false_iff] using h

theorem pySplitF_fuel (sep : Str) : ∀ f1 f2 s acc, s.length ≤ f1 → s.length ≤ f2 →
    pySplitF sep f1 s acc = pySplitF sep f2 s acc := by
  intro f1
  induction f1 with
  | zero =>
    intro f2 s acc h1 _
    have hs : s = [] := List.eq_nil_of_length_eq_zero (Nat.le_zero.mp h1)
    subst hs
    cases f2 <;> rfl
  | succ f ih =>
    intro f2 s acc h1 h2
    cases s with
    | nil => cases f2 <;> rfl
    | cons c rest =>
      cases f2 with
      | zero => simp at h2
      | succ g =>
        simp only [List.length_cons] at h1 h2
        simp only [pySplitF]
        by_cases hp : isPre sep (c :: rest) = true
        · rw [if_pos hp, if_pos hp]
          have hd : (rest.drop (sep.length - 1)).length ≤ f := by
            rw [List.length_drop]
            omega
          have hd2 : (rest.drop (sep.length - 1)).length ≤ g := by
            rw [List.length_drop]
            omega
          rw [ih g (rest.drop (sep.length - 1)) [] hd hd2]
        · rw [if_neg hp, if_neg hp]
          exact ih g rest (c :: acc) (by omega) (by omega)

theorem pySplitF_no_occur (sep : Str) : ∀ fuel s acc, s.length ≤ fuel →
    containsSub sep s = false → pySplitF sep fuel s acc = [acc.reverse ++ s] := by
  intro fuel
  induction fuel with
  | zero =>
    intro s acc h1 _
    have hs : s = [] := List.eq_nil_of_length_eq_zero (Nat.le_zero.mp h1)
    subst hs
    simp [pySplitF]
  | succ f ih =>
    intro s acc h1 h2
    cases s with
    | nil => simp [pySplitF]
    | cons c rest =>
      obtain ⟨hpre, hrest⟩ := containsSub_cons_false sep c rest h2
      simp only [pySplitF]
      rw [if_neg (by simp [hpre])]
      rw [ih rest (c :: acc) (by simpa using Nat.le_of_succ_le_succ (by simpa using h1)) hrest]
      simp

theorem pySplitF_break (sep : Str) (hsep : sep ≠ []) :
    ∀ a c fuel acc, (a ++ sep ++ c).length ≤ fuel →
    containsSub sep (a ++ sep.take (sep.length - 1)) = false →
    pySplitF sep fuel (a ++ sep ++ c) acc
      = (acc.reverse ++ a) :: pySplitF sep c.length c [] := by
  intro a
  induction a with
  | nil =>
    intro c fuel acc hlen _
    cases sep with
    | nil => exact absurd rfl hsep
    | cons s0 sep2 =>
      cases fuel with
      | zero => simp at hlen
      | succ f =>
        have hp : isPre (s0 :: sep2) (s0 :: (sep2 ++ c)) = true := by
          simpa using isPre_append (s0 :: sep2) c
        have e1 : ([] : Str) ++ (s0 :: sep2) ++ c = s0 :: (sep2 ++ c) := by simp
        rw [e1]
        simp only [pySplitF]
        rw [if_pos hp]
        have hdrop : (sep2 ++ c).drop ((s0 :: sep2).length - 1) = c := by
          simp [List.drop_left]
        rw [hdrop]
        have hc : c.length ≤ f := by
          simp only [List.nil_append, List.cons_append, List.length_cons,
            List.length_append] at hlen
          omega
        rw [pySplitF_fuel (s0 :: sep2) f (c.length) c [] hc (le_refl _)]
        simp
  | cons x a2 ih =>
    intro c fuel acc hlen hocc
    cases fuel with
    | zero => simp at hlen
    | succ f =>
      have hocc2 := containsSub_cons_false sep x (a2 ++ sep.take (sep.length - 1))
        (by simpa using hocc)
      have hfalse : isPre sep (x :: (a2 ++ (sep ++ c))) = false := by
        cases hP : isPre sep (x :: (a2 ++ (sep ++ c))) with
        | false => rfl
        | true =>
          exfalso
          obtain ⟨t, ht⟩ := isPre_exists sep (x :: (a2 ++ (sep ++ c))) hP
          have hcon : containsSub sep ((x :: a2) ++ sep.take (sep.length - 1)) = true := by
            refine containsSub_of_decomp sep (x :: (a2 ++ (sep ++ c)))
              ((x :: a2) ++ sep.take (sep.length - 1))
              (sep.drop (sep.length - 1) ++ c) [] t ht ?_ ?_
            · simp only [List.nil_append, List.cons_append, List.append_assoc]
              rw [← List.append_assoc (sep.take (sep.length - 1))]
              rw [List.take_append_drop]
            · have hs1 : 1 ≤ sep.length := by
                cases sep with
                | nil => exact absurd rfl hsep
                | cons y ys => simp
              simp only [List.nil_append, List.length_append, List.length_cons,
                List.length_nil, List.length_take,
                Nat.min_eq_left (Nat.sub_le sep.length 1)]
              omega
          rw [hocc] at hcon
          cases hcon
      have hlen2 : (a2 ++ sep ++ c).length ≤ f := by
        have h3 := hlen
        simp at h3 ⊢
        omega
      have goalstep : pySplitF sep (f + 1) ((x :: a2) ++ sep ++ c) acc
          = pySplitF sep f (a2 ++ sep ++ c) (x :: acc) := by
        have e1 : (x :: a2) ++ sep ++ c = x :: (a2 ++ (sep ++ c)) := by simp
        rw [e1]
        simp only [pySplitF]
        rw [if_neg (by simp [hfalse])]
        rw [← List.append_assoc]
      rw [goalstep, ih c f (x :: acc) hlen2 hocc2.2]
      simp

/-! ## Fence-specific facts -/

theorem fenceJson_decomp : fenceJson = fence ++ strL "json" := by decide

theorem isPre_fence_mid : ∀ b t : Str, containsSub fence b = false →
    isPre fence (b ++ '\n' :: t) = false
  | [], _, _ => rfl
  | [c1], t, _ => by
    show (('`' == c1) && (('`' == '\n') && isPre ['`'] t)) = false
    rw [show (('`' : Char) == '\n') = false from rfl]
    simp
  | [c1, c2], t, _ => by
    show (('`' == c1) && (('`' == c2) && (('`' == '\n') && isPre [] t))) = false
    rw [show (('`' : Char) == '\n') = false from rfl]
    simp
  | c1 :: c2 :: c3 :: b3, t, h => by
    cases hP : isPre fence ((c1 :: c2 :: c3 :: b3) ++ '\n' :: t) with
    | false => rfl
    | true =>
      exfalso
      have h1 : isPre fence (c1 :: c2 :: c3 :: b3) = true := by
        simp only [List.cons_append, isPre, Bool.and_eq_true] at hP ⊢
        tauto
      have h2 := containsSub_of_isPre fence (c1 :: c2 :: c3 :: b3) h1
      rw [h] at h2
      cases h2

theorem containsSub_fence_glue : ∀ b t : Str, containsSub fence b = false →
    containsSub fence t = false → containsSub fence (b ++ '\n' :: t) = false := by
  intro b
  induction b with
  | nil =>
    intro t hb ht
    have hmid := isPre_fence_mid [] t hb
    simp only [List.nil_append] at hmid ⊢
    simp [containsSub, hmid, ht]
  | cons x b2 ih =>
    intro t hb ht
    obtain ⟨_, hb2⟩ := containsSub_cons_false fence x b2 hb
    have hmid := isPre_fence_mid (x :: b2) t hb
    simp only [List.cons_append] at hmid ⊢
    simp [containsSub, hmid, ih t hb2 ht]

theorem fence_tail_unique : ∀ b : Str, containsSub fence b = false →
    ∀ a d : Str, b ++ '\n' :: fence = a ++ fence ++ d → d = [] := by
  intro b
  induction b with
  | nil =>
    intro _ a d h
    simp only [List.nil_append] at h
    cases a with
    | nil =>
      exfalso
      simp only [List.nil_append] at h
      injection h with h1 _
      exact absurd h1 (by decide)
    | cons y a2 =>
      simp only [List.cons_append] at h
      injection h with _ h2
      have hlen := congrArg List.length h2
      simp only [List.length_append, fence, List.length_cons, List.length_nil] at hlen
      have hz : a2.length = 0 ∧ d.length = 0 := by omega
      exact List.eq_nil_of_length_eq_zero hz.2
  | cons x b2 ih =>
    intro hb a d h
    obtain ⟨_, hb2⟩ := containsSub_cons_false fence x b2 hb
    cases a with
    | nil =>
      exfalso
      simp only [List.nil_append] at h
      have hP : isPre fence ((x :: b2) ++ '\n' :: fence) = true := by
        rw [h]
        exact isPre_append fence d
      rw [isPre_fence_mid (x :: b2) fence hb] at hP
      cases hP
    | cons y a2 =>
      simp only [List.cons_append] at h
      injection h with _ h2
      exact ih hb2 a2 d h2

/-! ## Whitespace-stripping lemmas -/

theorem pyStrip_cons_ws (x : Char) (s : Str) (hx : isPySpace x = true) :
    pyStrip (x :: s) = pyStrip s := by
  unfold pyStrip ltrim
  rw [List.dropWhile_cons_of_pos hx]

theorem rtrim_snoc_ws (x : Char) (u : Str) (hx : isPySpace x = true) :
    rtrim (u ++ [x]) = rtrim u := by
  unfold rtrim
  rw [List.reverse_append]
  simp only [List.reverse_cons, List.reverse_nil, List.nil_append, List.cons_append]
  rw [List.dropWhile_cons_of_pos hx]

theorem pyStrip_snoc_ws (x : Char) (s : Str) (hx : isPySpace x = true) :
    pyStrip (s ++ [x]) = pyStrip s := by
  induction s with
  | nil =>
    unfold pyStrip ltrim
    simp [List.dropWhile, hx, rtrim]
  | cons c s2 ih =>
    by_cases hc : isPySpace c = true
    · rw [List.cons_append, pyStrip_cons_ws c (s2 ++ [x]) hc, ih, pyStrip_cons_ws c s2 hc]
    · have hcf : isPySpace c = false := by
        cases hq : isPySpace c with
        | false => rfl
        | true => exact absurd hq hc
      unfold pyStrip ltrim
      rw [List.cons_append, List.dropWhile_cons_of_neg (by simp [hcf]),
        List.dropWhile_cons_of_neg (by simp [hcf])]
      rw [show c :: (s2 ++ [x]) = (c :: s2) ++ [x] from rfl]
      exact rtrim_snoc_ws x (c :: s2) hx

theorem fenceJson_decomp2 : fenceJson = fence ++ ['j', 's', 'o', 'n'] := rfl

/-- C2: for any fenced response `"```json\n" ++ body ++ "\n```"` whose body
contains no fence marker, the fence-stripping step yields exactly the text
strictly between the fences, stripped of surrounding whitespace; and any
response containing no `"```"` at all passes through unchanged. -/
theorem claim_C2_fence_stripping (b s : Str) (hb : containsSub fence b = false)
    (hs : containsSub fence s = false) :
    stripFence (fenceJson ++ '\n' :: (b ++ '\n' :: fence)) = pyStrip b ∧
    stripFence s = s := by
  constructor
  · have hnb : containsSub fence ('\n' :: b) = false := by
      have h0 : isPre fence ('\n' :: b) = false := rfl
      simp [containsSub, h0, hb]
    have hrest : containsSub fenceJson ('\n' :: (b ++ '\n' :: fence)) = false := by
      cases hq : containsSub fenceJson ('\n' :: (b ++ '\n' :: fence)) with
      | false => rfl
      | true =>
        exfalso
        obtain ⟨a1, c1, hdec⟩ := containsSub_exists fenceJson _ hq
        rw [fenceJson_decomp2] at hdec
        have hdec2 : ('\n' :: b) ++ '\n' :: fence = a1 ++ fence ++ (['j', 's', 'o', 'n'] ++ c1) := by
          simpa [List.append_assoc] using hdec
        have hd := fence_tail_unique ('\n' :: b) hnb a1 (['j', 's', 'o', 'n'] ++ c1) hdec2
        simp at hd
    have hcont : containsSub fenceJson (fenceJson ++ '\n' :: (b ++ '\n' :: fence)) = true :=
      containsSub_of_isPre _ _ (isPre_append _ _)
    have hsplit1 : pySplit fenceJson (fenceJson ++ '\n' :: (b ++ '\n' :: fence))
        = [[], '\n' :: (b ++ '\n' :: fence)] := by
      unfold pySplit
      have hbk := pySplitF_break fenceJson (by decide) [] ('\n' :: (b ++ '\n' :: fence))
        (fenceJson ++ '\n' :: (b ++ '\n' :: fence)).length [] (by simp) (by decide)
      simp only [List.nil_append] at hbk
      rw [hbk]
      rw [pySplitF_no_occur fenceJson _ _ [] (le_refl _) hrest]
      simp
    have hocc3 : containsSub fence
        (('\n' :: (b ++ ['\n'])) ++ fence.take (fence.length - 1)) = false := by
      have hg1 : containsSub fence (b ++ '\n' :: ['`', '`']) = false :=
        containsSub_fence_glue b ['`', '`'] hb (by decide)
      have hg2 : containsSub fence ([] ++ '\n' :: (b ++ '\n' :: ['`', '`'])) = false :=
        containsSub_fence_glue [] (b ++ '\n' :: ['`', '`']) rfl hg1
      rw [show fence.take (fence.length - 1) = ['`', '`'] from rfl]
      simp only [List.nil_append] at hg2
      have e4 : ('\n' :: (b ++ ['\n'])) ++ ['`', '`'] = '\n' :: (b ++ '\n' :: ['`', '`']) := by
        simp
      rw [e4]
      exact hg2
    have hsplit2 : pySplit fence ('\n' :: (b ++ '\n' :: fence))
        = ['\n' :: (b ++ ['\n']), []] := by
      unfold pySplit
      rw [show ('\n' :: (b ++ '\n' :: fence)) = ('\n' :: (b ++ ['\n'])) ++ fence ++ [] from
        by simp]
      rw [pySplitF_break fence (by decide) ('\n' :: (b ++ ['\n'])) [] _ [] (le_refl _) hocc3]
      rfl
    have hgoal : stripFence (fenceJson ++ '\n' :: (b ++ '\n' :: fence))
        = pyStrip ('\n' :: (b ++ ['\n'])) := by
      unfold stripFence
      rw [if_pos hcont, hsplit1]
      rw [show ([[], '\n' :: (b ++ '\n' :: fence)] : List Str).getD 1 []
          = '\n' :: (b ++ '\n' :: fence) from rfl]
      rw [hsplit2]
      rfl
    rw [hgoal, pyStrip_cons_ws '\n' _ (by decide)]
    exact pyStrip_snoc_ws '\n' b (by decide)
  · have h1 : containsSub fenceJson s = false := by
      cases hq : containsSub fenceJson s with
      | false => rfl
      | true =>
        exfalso
        have h2 : containsSub fence s = true := by
          rw [fenceJson_decomp2] at hq
          exact containsSub_of_append fence ['j', 's', 'o', 'n'] s hq
        rw [hs] at h2
        cases h2
    unfold stripFence
    rw [if_neg (by simp [h1]), if_neg (by simp [hs])]

/-- Witness for C2 on the spec's concrete fenced and unfenced inputs. -/
theorem claim_C2_fence_stripping_witness :
    stripFence (strL "```json\n\x7b\"k\": \"v\"\x7d\n```") = strL "\x7b\"k\": \"v\"\x7d" ∧
    stripFence (strL "no fence here") = strL "no fence here" := by
  have h := claim_C2_fence_stripping (strL "\x7b\"k\": \"v\"\x7d") (strL "no fence here")
    (by decide) (by decide)
  constructor
  · have e1 : strL "```json\n\x7b\"k\": \"v\"\x7d\n```"
        = fenceJson ++ '\n' :: (strL "\x7b\"k\": \"v\"\x7d" ++ '\n' :: fence) := by decide
    rw [e1, h.1]
    decide
  · exact h.2

/-- C10: when the response contains the opening marker `"```json"` with no
closing `"```"` anywhere after it, the unwrapping step does not fail: the
outer split still has a second piece, and the client returns all text
after the first `"```json"` occurrence, stripped of surrounding
whitespace, discarding everything before the marker — which may itself
contain bare fences.  The decomposition hypothesis `hfirst` states
exactly that the shown occurrence is the first one: no occurrence of the
marker starts before position `a.length` (such an occurrence would lie
entirely inside `a` followed by the first six marker characters). -/
theorem claim_C10_unterminated_fence (a c : Str)
    (hc : containsSub fence c = false)
    (hfirst : containsSub fenceJson (a ++ fenceJson.take (fenceJson.length - 1)) = false) :
    stripFence (a ++ fenceJson ++ c) = pyStrip c ∧
    2 ≤ (pySplit fenceJson (a ++ fenceJson ++ c)).length := by
  have hcJ : containsSub fenceJson c = false := by
    cases hq : containsSub fenceJson c with
    | false => rfl
    | true =>
      exfalso
      have h2 : containsSub fence c = true := by
        rw [fenceJson_decomp2] at hq
        exact containsSub_of_append fence ['j', 's', 'o', 'n'] c hq
      rw [hc] at h2
      cases h2
  have hsplit1 : pySplit fenceJson (a ++ fenceJson ++ c) = [a, c] := by
    unfold pySplit
    rw [pySplitF_break fenceJson (by decide) a c _ [] (le_refl _) hfirst]
    rw [pySplitF_no_occur fenceJson c.length c [] (le_refl _) hcJ]
    simp
  have hcont : containsSub fenceJson (a ++ fenceJson ++ c) = true := containsSub_intro _ _ _
  constructor
  · unfold stripFence
    rw [if_pos hcont, hsplit1]
    rw [show ([a, c] : List Str).getD 1 [] = c from rfl]
    unfold pySplit
    rw [pySplitF_no_occur fence c.length c [] (le_refl _) hc]
    rfl
  · rw [hsplit1]
    simp

/-- Witness for C10 on a concrete unterminated response whose discarded
text before the opening marker contains a bare fence of its own. -/
theorem claim_C10_unterminated_fence_witness :
    stripFence (strL "``` see ```json\nX  ") = strL "X" := by
  have h := claim_C10_unterminated_fence (strL "``` see ") (strL "\nX  ")
    (by decide) (by decide)
  have e1 : strL "``` see ```json\nX  "
      = strL "``` see " ++ fenceJson ++ strL "\nX  " := by decide
  rw [e1, h.1]
  decide

/-! ## A model of `json.dump(..., ensure_ascii=False, indent=2)`

`save_to_json` hands the record to `json.dump` with two-space
indentation, non-ASCII characters written literally and only the JSON
short escapes applied (`ensure_ascii=False`); control characters outside
the short-escape set would be `\u`-escaped by Python and are excluded
from well-formedness below. -/

/-- Escape one character of a JSON string, `ensure_ascii=False` style. -/
def escChar (c : Char) : Str :=
  if c == '"' then ['\\', '"']
  else if c == '\\' then ['\\', '\\']
  else if c == '\n' then ['\\', 'n']
  else if c == '\t' then ['\\', 't']
  else if c == '\r' then ['\\', 'r']
  else if c == '\x08' then ['\\', 'b']
  else if c == '\x0c' then ['\\', 'f']
  else [c]

/-- Escape a whole string body. -/
def escString (s : Str) : Str := (s.map escChar).flatten

/-- A JSON string literal: quoted escaped body. -/
def quoteStr (s : Str) : Str := '"' :: (escString s ++ ['"'])

/-- Two spaces of indentation per level. -/
def indentSp (lvl : Nat) : Str := List.replicate (2 * lvl) ' '

mutual

/-- Serialize a JSON value at an indentation level, following Python's
`json.dump` with `indent=2` (item separator `",\n"`, key separator `": "`,
empty containers inline). -/
def dumpVal (lvl : Nat) : JVal → Str
  | JVal.jnull => ['n', 'u', 'l', 'l']
  | JVal.jstr s => quoteStr s
  | JVal.jarr [] => ['[', ']']
  | JVal.jarr (v :: vs) =>
    '[' :: '\n' :: (dumpItemsD (lvl + 1) (v :: vs) ++ '\n' :: (indentSp lvl ++ [']']))
  | JVal.jobj [] => ['{', '}']
  | JVal.jobj ((k, v) :: kvs) =>
    '{' :: '\n' :: (dumpPairsD (lvl + 1) ((k, v) :: kvs) ++ '\n' :: (indentSp lvl ++ ['}']))

/-- Serialize the items of an array, one per indented line. -/
def dumpItemsD (lvl : Nat) : List JVal → Str
  | [] => []
  | v :: vs =>
    match vs with
    | [] => indentSp lvl ++ dumpVal lvl v
    | w :: vs2 => indentSp lvl ++ (dumpVal lvl v ++ ',' :: '\n' :: dumpItemsD lvl (w :: vs2))

/-- Serialize the members of an object, one per indented line. -/
def dumpPairsD (lvl : Nat) : JRecord → Str
  | [] => []
  | (k, v) :: kvs =>
    match kvs with
    | [] => indentSp lvl ++ (quoteStr k ++ ':' :: ' ' :: dumpVal lvl v)
    | p :: kvs2 =>
      indentSp lvl ++ (quoteStr k ++ ':' :: ' ' :: dumpVal lvl v)
        ++ ',' :: '\n' :: dumpPairsD lvl (p :: kvs2)

end

/-- `save_to_json` (`user_post_url.py` lines 165-176, `user_post_img.py`
lines 159-170): the file at the caller-given path afterwards holds exactly
the `json.dump` serialization of the record (UTF-8, unescaped non-ASCII,
two-space indent), any previous content overwritten. -/
def save_to_json (event_data : JVal) : Str := dumpVal 0 event_data

example :
    save_to_json (JVal.jobj [(strL "a", JVal.jnull),
      (strL "tags", JVal.jarr [JVal.jstr (strL "x")])])
    = strL "\x7b\n  \"a\": null,\n  \"tags\": [\n    \"x\"\n  ]\n\x7d" := by decide

/-- Characters the model serializes exactly as Python does: printable
(code point at least 32, non-ASCII included) or one of the short-escape
control characters. -/
def okChar (c : Char) : Bool :=
  decide (32 ≤ c.toNat) || c == '\n' || c == '\t' || c == '\r' || c == '\x08' || c == '\x0c'

/-- A well-formed string field value. -/
def wfStr (s : Str) : Bool := s.all okChar

/-- A tag entry: a well-formed string value. -/
def isJstrB : JVal → Bool
  | JVal.jstr s => wfStr s
  | _ => false

/-- A well-formed EventRecord field value: null, a string, or an array of
strings (the `tags` field). -/
def wfField : JVal → Bool
  | JVal.jnull => true
  | JVal.jstr s => wfStr s
  | JVal.jarr vs => vs.all isJstrB
  | JVal.jobj _ => false

/-- A well-formed EventRecord: distinct keys, well-formed key strings,
and each value of a schema shape (null / string / string array). -/
def WFRecord (d : JRecord) : Prop :=
  (d.map Prod.fst).Nodup ∧ ∀ p ∈ d, wfStr p.1 = true ∧ wfField p.2 = true

/-- Parser fuel sufficient for one dumped field value. -/
def valFuel : JVal → Nat
  | JVal.jarr [] => 1
  | JVal.jarr (_ :: vs) => vs.length + 3
  | _ => 1

/-- Parser fuel sufficient for a dumped member list. -/
def pairsFuel : JRecord → Nat
  | [] => 0
  | (_, v) :: kvs => 1 + valFuel v + pairsFuel kvs

/-- The text that follows the first item of a dumped string array: either
the closing line, or a comma and the next indented item. -/
def itemsTail : List Str → Str → Str
  | [], rest => '\n' :: (indentSp 1 ++ ']' :: rest)
  | s :: ss, rest => ',' :: '\n' :: (indentSp 2 ++ (quoteStr s ++ itemsTail ss rest))

/-- The text that follows the first member of a dumped record: either the
closing line, or a comma and the next indented member. -/
def pairsTail : JRecord → Str → Str
  | [], rest => '\n' :: ('}' :: rest)
  | (k, v) :: kvs, rest =>
    ',' :: '\n' :: (indentSp 1 ++ (quoteStr k ++ ':' :: ' ' :: (dumpVal 1 v ++ pairsTail kvs rest)))

example :
    jloads (save_to_json (JVal.jobj [(strL "a", JVal.jnull),
      (strL "tags", JVal.jarr [JVal.jstr (strL "x"), JVal.jstr (strL "y")])]))
    = some (JVal.jobj [(strL "a", JVal.jnull),
      (strL "tags", JVal.jarr [JVal.jstr (strL "x"), JVal.jstr (strL "y")])]) := rfl

/-! ## Round-trip lemmas: strings and whitespace -/

theorem escString_cons (c : Char) (s : Str) : escString (c :: s) = escChar c ++ escString s := by
  simp [escString]

theorem parseStrBody_escChar (c : Char) (t : Str) :
    parseStrBody (escChar c ++ t) = (parseStrBody t).map (fun p => (c :: p.1, p.2)) := by
  by_cases h1 : c = '"'
  · subst h1
    rw [show escChar '"' ++ t = '\\' :: '"' :: t from by simp [escChar]]
    rw [parseStrBody.eq_def]
    cases hp : parseStrBody t <;> simp [unescChar, hp]
  · by_cases h2 : c = '\\'
    · subst h2
      rw [show escChar '\\' ++ t = '\\' :: '\\' :: t from by simp [escChar]]
      rw [parseStrBody.eq_def]
      cases hp : parseStrBody t <;> simp [unescChar, hp]
    · by_cases h3 : c = '\n'
      · subst h3
        rw [show escChar '\n' ++ t = '\\' :: 'n' :: t from by simp [escChar]]
        rw [parseStrBody.eq_def]
        cases hp : parseStrBody t <;> simp [unescChar, hp]
      · by_cases h4 : c = '\t'
        · subst h4
          rw [show escChar '\t' ++ t = '\\' :: 't' :: t from by simp [escChar]]
          rw [parseStrBody.eq_def]
          cases hp : parseStrBody t <;> simp [unescChar, hp]
        · by_cases h5 : c = '\r'
          · subst h5
            rw [show escChar '\r' ++ t = '\\' :: 'r' :: t from by simp [escChar]]
            rw [parseStrBody.eq_def]
            cases hp : parseStrBody t <;> simp [unescChar, hp]
          · by_cases h6 : c = '\x08'
            · subst h6
              rw [show escChar '\x08' ++ t = '\\' :: 'b' :: t from by simp [escChar]]
              rw [parseStrBody.eq_def]
              cases hp : parseStrBody t <;> simp [unescChar, hp]
            · by_cases h7 : c = '\x0c'
              · subst h7
                rw [show escChar '\x0c' ++ t = '\\' :: 'f' :: t from by simp [escChar]]
                rw [parseStrBody.eq_def]
                cases hp : parseStrBody t <;> simp [unescChar, hp]
              · have e1 : (c == '"') = false := by simpa using h1
                have e2 : (c == '\\') = false := by simpa using h2
                rw [show escChar c ++ t = c :: t from by
                  simp [escChar, e1, e2, (by simpa using h3 : (c == '\n') = false),
                    (by simpa using h4 : (c == '\t') = false),
                    (by simpa using h5 : (c == '\r') = false),
                    (by simpa using h6 : (c == '\x08') = false),
                    (by simpa using h7 : (c == '\x0c') = false)]]
                rw [parseStrBody.eq_def]
                cases hp : parseStrBody t <;> simp [e1, e2, hp]

theorem parseStrBody_escString (s : Str) (rest : Str) :
    parseStrBody (escString s ++ '"' :: rest) = some (s, rest) := by
  induction s with
  | nil =>
    rw [show escString [] ++ '"' :: rest = '"' :: rest from by simp [escString]]
    rw [parseStrBody.eq_def]
    simp
  | cons c s2 ih =>
    rw [escString_cons, List.append_assoc, parseStrBody_escChar, ih]
    rfl

theorem quoteStr_append (s t : Str) : quoteStr s ++ t = '"' :: (escString s ++ '"' :: t) := by
  simp [quoteStr]

theorem parseVal_quote (g : Nat) (s rest : Str) :
    parseVal (g + 1) (quoteStr s ++ rest) = some (JVal.jstr s, rest) := by
  rw [quoteStr_append]
  rw [parseVal.eq_def]
  simp [parseStrBody_escString]

theorem skipWs_cons_ws (c : Char) (t : Str) (h : isJsonWs c = true) :
    skipWs (c :: t) = skipWs t := by
  simp [skipWs, List.dropWhile_cons_of_pos h]

theorem skipWs_nonws (c : Char) (t : Str) (h : isJsonWs c = false) :
    skipWs (c :: t) = c :: t := by
  simp only [skipWs]
  rw [List.dropWhile_cons_of_neg]
  simp [h]

theorem skipWs_replicate (m : Nat) (t : Str) :
    skipWs (List.replicate m ' ' ++ t) = skipWs t := by
  induction m with
  | zero => rfl
  | succ k ih =>
    rw [List.replicate_succ, List.cons_append, skipWs_cons_ws ' ' _ rfl]
    exact ih

theorem skipWs_indentSp (n : Nat) (t : Str) : skipWs (indentSp n ++ t) = skipWs t :=
  skipWs_replicate (2 * n) t

theorem skipWs_dump (v : JVal) (t : Str) :
    skipWs (dumpVal 1 v ++ t) = dumpVal 1 v ++ t := by
  cases v with
  | jnull => exact skipWs_nonws 'n' _ rfl
  | jstr s => exact skipWs_nonws '"' _ rfl
  | jarr vs =>
    cases vs with
    | nil => exact skipWs_nonws '[' _ rfl
    | cons v vs2 => exact skipWs_nonws '[' _ rfl
  | jobj kvs =>
    cases kvs with
    | nil => exact skipWs_nonws '{' _ rfl
    | cons p kvs2 =>
      obtain ⟨k, v⟩ := p
      exact skipWs_nonws '{' _ rfl

theorem all_jstr_exists : ∀ vs : List JVal, vs.all isJstrB = true →
    ∃ ss : List Str, vs = ss.map JVal.jstr
  | [], _ => ⟨[], rfl⟩
  | v :: vs2, h => by
    simp only [List.all_cons, Bool.and_eq_true] at h
    obtain ⟨ss, rfl⟩ := all_jstr_exists vs2 h.2
    cases v with
    | jstr s => exact ⟨s :: ss, rfl⟩
    | jnull => simp [isJstrB] at h
    | jarr ws => simp [isJstrB] at h
    | jobj kvs => simp [isJstrB] at h

theorem dumpItems_shape : ∀ (ss : List Str) (s : Str) (rest : Str),
    dumpItemsD 2 ((s :: ss).map JVal.jstr) ++ '\n' :: (indentSp 1 ++ ']' :: rest)
      = indentSp 2 ++ (quoteStr s ++ itemsTail ss rest) := by
  intro ss
  induction ss with
  | nil =>
    intro s rest
    rw [show dumpItemsD 2 ((s :: []).map JVal.jstr) = indentSp 2 ++ quoteStr s from rfl]
    rw [show itemsTail [] rest = '\n' :: (indentSp 1 ++ ']' :: rest) from rfl]
    simp [List.append_assoc]
  | cons s2 ss2 ih =>
    intro s rest
    rw [show dumpItemsD 2 ((s :: s2 :: ss2).map JVal.jstr)
        = indentSp 2 ++ (quoteStr s ++ ',' :: '\n'
          :: dumpItemsD 2 ((s2 :: ss2).map JVal.jstr)) from rfl]
    rw [show itemsTail (s2 :: ss2) rest
        = ',' :: '\n' :: (indentSp 2 ++ (quoteStr s2 ++ itemsTail ss2 rest)) from rfl]
    rw [← ih s2 rest]
    simp [List.append_assoc]

theorem parseItems_strings : ∀ (ss : List Str) (s : Str) (g : Nat) (rest : Str),
    ss.length + 2 ≤ g →
    parseItems g (quoteStr s ++ itemsTail ss rest)
      = some ((s :: ss).map JVal.jstr, rest) := by
  intro ss
  induction ss with
  | nil =>
    intro s g rest hg
    obtain ⟨g2, rfl⟩ : ∃ g2, g = g2 + 2 := ⟨g - 2, by omega⟩
    rw [show itemsTail [] rest = '\n' :: (indentSp 1 ++ ']' :: rest) from rfl]
    rw [parseItems.eq_def]
    simp only [parseVal_quote g2 s ('\n' :: (indentSp 1 ++ ']' :: rest))]
    rw [skipWs_cons_ws '\n' _ rfl, skipWs_indentSp, skipWs_nonws ']' _ rfl]
    simp
  | cons s2 ss2 ih =>
    intro s g rest hg
    obtain ⟨g2, rfl⟩ : ∃ g2, g = g2 + 2 := ⟨g - 2, by omega⟩
    have ihh := ih s2 (g2 + 1) rest (by simp at hg; omega)
    have hq : skipWs (quoteStr s2 ++ itemsTail ss2 rest)
        = quoteStr s2 ++ itemsTail ss2 rest := by
      rw [quoteStr_append]
      exact skipWs_nonws '"' _ rfl
    rw [show itemsTail (s2 :: ss2) rest
        = ',' :: '\n' :: (indentSp 2 ++ (quoteStr s2 ++ itemsTail ss2 rest)) from rfl]
    rw [parseItems.eq_def]
    simp only [parseVal_quote g2 s
      (',' :: '\n' :: (indentSp 2 ++ (quoteStr s2 ++ itemsTail ss2 rest)))]
    rw [skipWs_nonws ',' _ rfl]
    simp only []
    rw [skipWs_cons_ws '\n' _ rfl, skipWs_indentSp, hq, ihh]
    simp

theorem parseVal_flat (v : JVal) (g : Nat) (tail : Str) (hv : wfField v = true)
    (hg : valFuel v ≤ g) :
    parseVal g (dumpVal 1 v ++ tail) = some (v, tail) := by
  cases v with
  | jnull =>
    obtain ⟨g2, rfl⟩ : ∃ g2, g = g2 + 1 := ⟨g - 1, by simp [valFuel] at hg; omega⟩
    rw [show dumpVal 1 JVal.jnull ++ tail = 'n' :: 'u' :: 'l' :: 'l' :: tail from rfl]
    rw [parseVal.eq_def]
    simp [dropLit]
  | jstr s =>
    obtain ⟨g2, rfl⟩ : ∃ g2, g = g2 + 1 := ⟨g - 1, by simp [valFuel] at hg; omega⟩
    exact parseVal_quote g2 s tail
  | jarr vs =>
    cases vs with
    | nil =>
      obtain ⟨g2, rfl⟩ : ∃ g2, g = g2 + 1 := ⟨g - 1, by simp [valFuel] at hg; omega⟩
      rw [show dumpVal 1 (JVal.jarr []) ++ tail = '[' :: ']' :: tail from rfl]
      rw [parseVal.eq_def]
      simp [skipWs_nonws ']' tail rfl]
    | cons w ws =>
      obtain ⟨ss0, hss⟩ := all_jstr_exists (w :: ws) (by simpa [wfField] using hv)
      cases ss0 with
      | nil => simp at hss
      | cons s ss =>
        rw [hss]
        rw [hss] at hg
        obtain ⟨g2, rfl⟩ : ∃ g2, g = g2 + 1 :=
          ⟨g - 1, by simp [valFuel] at hg; omega⟩
        have hfuel : ss.length + 2 ≤ g2 := by
          simp [valFuel] at hg
          omega
        rw [show dumpVal 1 (JVal.jarr ((s :: ss).map JVal.jstr)) ++ tail
            = '[' :: '\n' :: (indentSp 2 ++ (quoteStr s ++ itemsTail ss tail)) from by
          rw [← dumpItems_shape ss s tail]
          rw [show dumpVal 1 (JVal.jarr ((s :: ss).map JVal.jstr))
              = '[' :: '\n' :: (dumpItemsD 2 ((s :: ss).map JVal.jstr)
                ++ '\n' :: (indentSp 1 ++ [']'])) from rfl]
          simp [List.append_assoc]]
        have hitems := parseItems_strings ss s g2 tail hfuel
        rw [quoteStr_append] at hitems
        have hskip : skipWs ('\n' :: (indentSp 2 ++ (quoteStr s ++ itemsTail ss tail)))
            = '"' :: (escString s ++ '"' :: itemsTail ss tail) := by
          rw [skipWs_cons_ws '\n' _ rfl, skipWs_indentSp, quoteStr_append,
            skipWs_nonws '"' _ rfl]
        rw [parseVal.eq_def]
        simp [hskip, hitems]
  | jobj kvs => simp [wfField] at hv

theorem dumpPairs_shape : ∀ (kvs : JRecord) (k : Str) (v : JVal) (rest : Str),
    dumpPairsD 1 ((k, v) :: kvs) ++ '\n' :: '}' :: rest
      = indentSp 1 ++ (quoteStr k ++ ':' :: ' ' :: (dumpVal 1 v ++ pairsTail kvs rest)) := by
  intro kvs
  induction kvs with
  | nil =>
    intro k v rest
    rw [show dumpPairsD 1 [(k, v)]
        = indentSp 1 ++ (quoteStr k ++ ':' :: ' ' :: dumpVal 1 v) from rfl]
    rw [show pairsTail [] rest = '\n' :: ('}' :: rest) from rfl]
    simp [List.append_assoc]
  | cons p kvs2 ih =>
    obtain ⟨k2, v2⟩ := p
    intro k v rest
    rw [show dumpPairsD 1 ((k, v) :: (k2, v2) :: kvs2)
        = indentSp 1 ++ (quoteStr k ++ ':' :: ' ' :: dumpVal 1 v)
          ++ ',' :: '\n' :: dumpPairsD 1 ((k2, v2) :: kvs2) from rfl]
    rw [show pairsTail ((k2, v2) :: kvs2) rest
        = ',' :: '\n' :: (indentSp 1 ++ (quoteStr k2 ++ ':' :: ' '
          :: (dumpVal 1 v2 ++ pairsTail kvs2 rest))) from rfl]
    rw [← ih k2 v2 rest]
    simp [List.append_assoc]

theorem parsePairs_rt : ∀ (kvs : JRecord) (k : Str) (v : JVal) (g : Nat) (rest : Str),
    wfField v = true → (∀ p ∈ kvs, wfField p.2 = true) →
    pairsFuel ((k, v) :: kvs) ≤ g →
    parsePairs g (quoteStr k ++ ':' :: ' ' :: (dumpVal 1 v ++ pairsTail kvs rest))
      = some ((k, v) :: kvs, rest) := by
  intro kvs
  induction kvs with
  | nil =>
    intro k v g rest hv _ hg
    obtain ⟨g2, rfl⟩ : ∃ g2, g = g2 + 1 := ⟨g - 1, by simp [pairsFuel] at hg; omega⟩
    have hgv : valFuel v ≤ g2 := by simp [pairsFuel] at hg; omega
    have hval := parseVal_flat v g2 (pairsTail [] rest) hv hgv
    have hs3 : skipWs (pairsTail [] rest) = '}' :: rest := by
      rw [show pairsTail [] rest = '\n' :: ('}' :: rest) from rfl]
      rw [skipWs_cons_ws '\n' _ rfl, skipWs_nonws '}' _ rfl]
    rw [quoteStr_append]
    rw [parsePairs.eq_def]
    simp [parseStrBody_escString, skipWs_nonws, skipWs_cons_ws, skipWs_dump,
      isJsonWs, hval, hs3]
  | cons p kvs2 ih =>
    obtain ⟨k2, v2⟩ := p
    intro k v g rest hv hall hg
    obtain ⟨g2, rfl⟩ : ∃ g2, g = g2 + 1 := ⟨g - 1, by simp [pairsFuel] at hg; omega⟩
    have hgv : valFuel v ≤ g2 := by simp [pairsFuel] at hg; omega
    have hgrec : pairsFuel ((k2, v2) :: kvs2) ≤ g2 := by
      simp [pairsFuel] at hg ⊢
      omega
    have hv2 : wfField v2 = true := hall (k2, v2) (List.mem_cons_self _ _)
    have ihh := ih k2 v2 g2 rest hv2 (fun q hq => hall q (List.mem_cons_of_mem _ hq)) hgrec
    have hval := parseVal_flat v g2 (pairsTail ((k2, v2) :: kvs2) rest) hv hgv
    have hs3c : skipWs (pairsTail ((k2, v2) :: kvs2) rest)
        = ',' :: ('\n' :: (indentSp 1 ++ (quoteStr k2 ++ ':' :: ' '
          :: (dumpVal 1 v2 ++ pairsTail kvs2 rest)))) := by
      rw [show pairsTail ((k2, v2) :: kvs2) rest
          = ',' :: '\n' :: (indentSp 1 ++ (quoteStr k2 ++ ':' :: ' '
            :: (dumpVal 1 v2 ++ pairsTail kvs2 rest))) from rfl]
      exact skipWs_nonws ',' _ rfl
    have hs4 : skipWs ('\n' :: (indentSp 1 ++ (quoteStr k2 ++ ':' :: ' '
          :: (dumpVal 1 v2 ++ pairsTail kvs2 rest))))
        = '"' :: (escString k2 ++ '"' :: (':' :: ' '
          :: (dumpVal 1 v2 ++ pairsTail kvs2 rest))) := by
      rw [skipWs_cons_ws '\n' _ rfl, skipWs_indentSp, quoteStr_append,
        skipWs_nonws '"' _ rfl]
    rw [quoteStr_append]
    rw [quoteStr_append] at ihh
    rw [parsePairs.eq_def]
    simp [parseStrBody_escString, skipWs_nonws, skipWs_cons_ws, skipWs_dump,
      isJsonWs, hval, hs3c, hs4, ihh]

theorem setKey_not_mem (d : JRecord) (k : Str) (v : JVal) (h : ¬ k ∈ d.map Prod.fst) :
    setKey d k v = d ++ [(k, v)] := by
  induction d with
  | nil => rfl
  | cons p rest ih =>
    obtain ⟨k1, v1⟩ := p
    simp only [List.map_cons, List.mem_cons] at h
    push_neg at h
    have h1 : ¬ k1 = k := fun hh => h.1 hh.symm
    simp [setKey, h1, ih h.2]

theorem buildObj_aux : ∀ (pairs d : JRecord),
    ((d ++ pairs).map Prod.fst).Nodup →
    pairs.foldl (fun acc p => setKey acc p.1 p.2) d = d ++ pairs := by
  intro pairs
  induction pairs with
  | nil => intro d _; simp
  | cons p ps ih =>
    obtain ⟨k, v⟩ := p
    intro d hnd
    have hnotin : ¬ k ∈ d.map Prod.fst := by
      have h2 := hnd
      rw [List.map_append, List.nodup_append] at h2
      intro hk
      exact h2.2.2 hk (List.mem_cons_self k (ps.map Prod.fst))
    simp only [List.foldl_cons]
    rw [setKey_not_mem d k v hnotin]
    rw [ih (d ++ [(k, v)]) (by simpa [List.append_assoc] using hnd)]
    simp

theorem buildObj_eq (pairs : JRecord) (h : (pairs.map Prod.fst).Nodup) :
    buildObj pairs = pairs := by
  have h2 := buildObj_aux pairs [] (by simpa using h)
  simpa [buildObj] using h2

theorem dumpVal_pos (lvl : Nat) (v : JVal) : 1 ≤ (dumpVal lvl v).length := by
  cases v with
  | jnull => simp [dumpVal]
  | jstr s => simp [dumpVal, quoteStr]
  | jarr vs => cases vs <;> simp [dumpVal]
  | jobj kvs =>
    cases kvs with
    | nil => simp [dumpVal]
    | cons p kvs2 =>
      obtain ⟨k, v⟩ := p
      simp [dumpVal]

theorem dumpItemsD_len : ∀ (vs : List JVal) (v : JVal),
    vs.length + 1 ≤ (dumpItemsD 2 (v :: vs)).length := by
  intro vs
  induction vs with
  | nil =>
    intro v
    rw [show dumpItemsD 2 [v] = indentSp 2 ++ dumpVal 2 v from rfl]
    have h1 := dumpVal_pos 2 v
    simp only [List.length_append, List.length_nil, List.length_cons]
    omega
  | cons w vs2 ih =>
    intro v
    rw [show dumpItemsD 2 (v :: w :: vs2)
        = indentSp 2 ++ (dumpVal 2 v ++ ',' :: '\n' :: dumpItemsD 2 (w :: vs2)) from rfl]
    have h1 := ih w
    have h2 := dumpVal_pos 2 v
    simp only [List.length_append, List.length_cons]
    omega

theorem dumpVal_len (v : JVal) : valFuel v ≤ (dumpVal 1 v).length := by
  cases v with
  | jnull => simp [valFuel, dumpVal]
  | jstr s => simp [valFuel, dumpVal, quoteStr]
  | jarr vs =>
    cases vs with
    | nil => simp [valFuel, dumpVal]
    | cons w ws =>
      rw [show dumpVal 1 (JVal.jarr (w :: ws))
          = '[' :: '\n' :: (dumpItemsD 2 (w :: ws)
            ++ '\n' :: (indentSp 1 ++ [']'])) from rfl]
      have h1 := dumpItemsD_len ws w
      simp only [valFuel, List.length_cons, List.length_append]
      omega
  | jobj kvs =>
    cases kvs with
    | nil => simp [valFuel, dumpVal]
    | cons p kvs2 =>
      obtain ⟨k, v⟩ := p
      simp [valFuel, dumpVal]

theorem dumpPairsD_len : ∀ (kvs : JRecord) (k : Str) (v : JVal),
    pairsFuel ((k, v) :: kvs) ≤ (dumpPairsD 1 ((k, v) :: kvs)).length := by
  intro kvs
  induction kvs with
  | nil =>
    intro k v
    rw [show dumpPairsD 1 [(k, v)]
        = indentSp 1 ++ (quoteStr k ++ ':' :: ' ' :: dumpVal 1 v) from rfl]
    have h1 := dumpVal_len v
    simp only [pairsFuel, quoteStr, List.length_append, List.length_cons]
    omega
  | cons p kvs2 ih =>
    obtain ⟨k2, v2⟩ := p
    intro k v
    rw [show dumpPairsD 1 ((k, v) :: (k2, v2) :: kvs2)
        = indentSp 1 ++ (quoteStr k ++ ':' :: ' ' :: dumpVal 1 v)
          ++ ',' :: '\n' :: dumpPairsD 1 ((k2, v2) :: kvs2) from rfl]
    have h1 := dumpVal_len v
    have h2 := ih k2 v2
    simp only [pairsFuel, quoteStr, List.length_append, List.length_cons] at h2 ⊢
    omega

theorem parseVal_obj (g : Nat) (k : Str) (v : JVal) (kvs : JRecord) (rest : Str)
    (hv : wfField v = true) (hall : ∀ q ∈ kvs, wfField q.2 = true)
    (hfuel : pairsFuel ((k, v) :: kvs) ≤ g) :
    parseVal (g + 1) ('{' :: '\n' :: (indentSp 1 ++ (quoteStr k ++ ':' :: ' '
      :: (dumpVal 1 v ++ pairsTail kvs rest))))
      = some (JVal.jobj (buildObj ((k, v) :: kvs)), rest) := by
  have hpp := parsePairs_rt kvs k v g rest hv hall hfuel
  rw [quoteStr_append] at hpp
  have hskip1 : skipWs ('\n' :: (indentSp 1 ++ (quoteStr k ++ ':' :: ' '
        :: (dumpVal 1 v ++ pairsTail kvs rest))))
      = '"' :: (escString k ++ '"' :: (':' :: ' '
        :: (dumpVal 1 v ++ pairsTail kvs rest))) := by
    rw [skipWs_cons_ws '\n' _ rfl, skipWs_indentSp, quoteStr_append,
      skipWs_nonws '"' _ rfl]
  rw [parseVal.eq_def]
  simp [hskip1, hpp]

/-- C6: JSON round-trip — serializing a well-formed EventRecord with
`save_to_json` (UTF-8, non-ASCII unescaped, two-space indent) and parsing
the written file back as JSON yields the identical mapping: same keys in
the same order, same value shapes, same array element order, and the same
(non-ASCII included) text content. -/
theorem claim_C6_roundtrip (d : JRecord) (h : WFRecord d) :
    jloads (save_to_json (JVal.jobj d)) = some (JVal.jobj d) := by
  obtain ⟨hnd, hfields⟩ := h
  cases d with
  | nil => rfl
  | cons p kvs =>
    obtain ⟨k, v⟩ := p
    have hv : wfField v = true := (hfields (k, v) (List.mem_cons_self _ _)).2
    have hall : ∀ q ∈ kvs, wfField q.2 = true :=
      fun q hq => (hfields q (List.mem_cons_of_mem _ hq)).2
    have hshape : save_to_json (JVal.jobj ((k, v) :: kvs))
        = '{' :: '\n' :: (indentSp 1 ++ (quoteStr k ++ ':' :: ' '
            :: (dumpVal 1 v ++ pairsTail kvs []))) := by
      rw [show save_to_json (JVal.jobj ((k, v) :: kvs))
          = '{' :: '\n' :: (dumpPairsD 1 ((k, v) :: kvs)
            ++ '\n' :: (indentSp 0 ++ ['}'])) from rfl]
      rw [show ('\n' :: (indentSp 0 ++ ['}']) : Str) = '\n' :: '}' :: [] from rfl]
      rw [dumpPairs_shape kvs k v []]
    have hfuel : pairsFuel ((k, v) :: kvs)
        ≤ (save_to_json (JVal.jobj ((k, v) :: kvs))).length := by
      have h1 := dumpPairsD_len kvs k v
      rw [show save_to_json (JVal.jobj ((k, v) :: kvs))
          = '{' :: '\n' :: (dumpPairsD 1 ((k, v) :: kvs)
            ++ '\n' :: (indentSp 0 ++ ['}'])) from rfl]
      simp only [List.length_cons, List.length_append]
      omega
    have hobj := parseVal_obj ((save_to_json (JVal.jobj ((k, v) :: kvs))).length)
      k v kvs [] hv hall hfuel
    rw [← hshape] at hobj
    have hskip0 : skipWs (save_to_json (JVal.jobj ((k, v) :: kvs)))
        = save_to_json (JVal.jobj ((k, v) :: kvs)) := by
      rw [hshape]
      exact skipWs_nonws '{' _ rfl
    unfold jloads
    rw [hskip0, hobj, buildObj_eq ((k, v) :: kvs) hnd]
    rfl

/-- Witness for C6 on a representative record with Japanese text and tags. -/
theorem claim_C6_roundtrip_witness :
    jloads (save_to_json (JVal.jobj
      [(strL "event_name", JVal.jstr (strL "夏祭り2025")),
       (strL "event_date_end", JVal.jnull),
       (strL "location", JVal.jstr (strL "調布キャンパス \"B棟\"")),
       (strL "tags", JVal.jarr [JVal.jstr (strL "#祭り"), JVal.jstr (strL "#音楽")])]))
    = some (JVal.jobj
      [(strL "event_name", JVal.jstr (strL "夏祭り2025")),
       (strL "event_date_end", JVal.jnull),
       (strL "location", JVal.jstr (strL "調布キャンパス \"B棟\"")),
       (strL "tags", JVal.jarr [JVal.jstr (strL "#祭り"), JVal.jstr (strL "#音楽")])]) :=
  claim_C6_roundtrip
    [(strL "event_name", JVal.jstr (strL "夏祭り2025")),
     (strL "event_date_end", JVal.jnull),
     (strL "location", JVal.jstr (strL "調布キャンパス \"B棟\"")),
     (strL "tags", JVal.jarr [JVal.jstr (strL "#祭り"), JVal.jstr (strL "#音楽")])]
    ⟨by decide, by decide⟩
